import Mathlib

/-!
Chatterino: credential store and input completion popup.

A shallow embedding of `src/common/Credentials.cpp` and
`src/widgets/splits/InputCompletionPopup.cpp`, with the Qt value types they use
(`QString`, `QJsonDocument`, `QJsonObject`) modelled by their documented behaviour.
-/

namespace chatterino

/-! Section: QString -/

/-- A `QString` is modelled by its sequence of code points. -/
abbrev QString := List Char

/-- Case folding restricted to ASCII, used for concrete evaluations. All general
results are stated for an arbitrary folding table `fold`. -/
def asciiFold (c : Char) : Char := c.toLower

/-- The Qt function `QString::startsWith(text, Qt::CaseInsensitive)`: the folded code
points of `text` are an initial segment of the folded code points of `s`. -/
def startsWith (fold : Char → Char) : QString → QString → Bool
  | _, [] => true
  | [], _ :: _ => false
  | c :: cs, d :: ds => fold c == fold d && startsWith fold cs ds

/-- The Qt function `QString::contains(text, Qt::CaseInsensitive)`, that is
`indexOf(text) != -1`: `text` matches at some position of `s`. -/
def contains (fold : Char → Char) : QString → QString → Bool
  | [], text => startsWith fold [] text
  | c :: cs, text => startsWith fold (c :: cs) text || contains fold cs text

/-- The Qt function `QString::compare(other, Qt::CaseInsensitive)`: negative, zero or
positive as the folded `a` is before, equal to or after the folded `b`. -/
def compare (fold : Char → Char) : QString → QString → Int
  | [], [] => 0
  | [], _ :: _ => -1
  | _ :: _, [] => 1
  | c :: cs, d :: ds =>
    if fold c = fold d then compare fold cs ds
    else ((fold c).toNat : Int) - ((fold d).toNat : Int)

/-! Section: QString::arg -/

/-- The Qt function `QChar::digitValue` on the ASCII digits (`none` stands for `-1`). -/
def digitValue (c : Char) : Option Nat :=
  if c.isDigit then some (c.toNat - '0'.toNat) else none

/-- A piece of a format string as `findArgEscapes` and `replaceArgEscapes` read it:
an ordinary character, or a place marker `%n`, `%nn`, `%Ln`, `%Lnn` with its number
and the characters it is written with. -/
inductive ArgToken where
  | lit (c : Char)
  | escape (n : Nat) (raw : List Char)
  deriving DecidableEq, Repr

/-- Where the scan of a format string stands: in ordinary text, after a `%` (and
possibly an `L`), or after the first digit of a place marker. -/
inductive ScanState where
  | text
  | percent (raw : List Char) (sawL : Bool)
  | digit (raw : List Char) (d : Nat)
  deriving DecidableEq, Repr

/-- The scan shared by `findArgEscapes` and `replaceArgEscapes`: a `%`, an optional `L`,
one digit and an optional second digit form a place marker; when no digit follows,
scanning resumes at the character that was read in its place. -/
def tokenize : ScanState → List Char → List ArgToken
  | .text, [] => []
  | .text, c :: cs =>
    if c = '%' then tokenize (.percent ['%'] false) cs
    else .lit c :: tokenize .text cs
  | .percent raw _, [] => raw.map .lit
  | .percent raw sawL, c :: cs =>
    if c = 'L' ∧ sawL = false then tokenize (.percent (raw ++ ['L']) true) cs
    else
      match digitValue c with
      | some d => tokenize (.digit (raw ++ [c]) d) cs
      | none =>
        raw.map .lit ++
          (if c = '%' then tokenize (.percent ['%'] false) cs
           else .lit c :: tokenize .text cs)
  | .digit raw d, [] => [.escape d raw]
  | .digit raw d, c :: cs =>
    match digitValue c with
    | some d2 => .escape (10 * d + d2) (raw ++ [c]) :: tokenize .text cs
    | none =>
      .escape d raw ::
        (if c = '%' then tokenize (.percent ['%'] false) cs
         else .lit c :: tokenize .text cs)

/-- The `min_escape` of `findArgEscapes`: the lowest place marker number, `none` when
the string has no place marker. -/
def minEscape : List ArgToken → Option Nat
  | [] => none
  | .lit _ :: ts => minEscape ts
  | .escape n _ :: ts =>
    match minEscape ts with
    | none => some n
    | some m => some (min n m)

/-- The `replaceArgEscapes` of Qt with field width 0: every place marker numbered
`m` becomes `a`, everything else is copied. -/
def replaceArgEscapes (m : Nat) (a : QString) : List ArgToken → QString
  | [] => []
  | .lit c :: ts => c :: replaceArgEscapes m a ts
  | .escape n raw :: ts =>
    (if n = m then a else raw) ++ replaceArgEscapes m a ts

/-- The Qt function `QString::arg(const QString &a)`: replaces every occurrence of the
lowest numbered place marker by `a`; a string without place markers is returned
unchanged (Qt only prints a warning). The text put in is not scanned again by the same
call, but a later call of `arg` on the result scans all of it. -/
def arg (s a : QString) : QString :=
  match minEscape (tokenize .text s) with
  | none => s
  | some m => replaceArgEscapes m a (tokenize .text s)

/-! Section: Credentials.cpp -/

/-- The macro `FORMAT_NAME`: `assert(!provider.contains(":"))`, then
`QString("chatterino:%1:%2").arg(provider).arg(name_)`. `none` is the failed
assertion. -/
def FORMAT_NAME (provider name_ : QString) : Option QString :=
  if ':' ∈ provider then none
  else some (arg (arg "chatterino:%1:%2".toList provider) name_)

/-- A `QJsonValue`; numbers and containers carry no payload here because the
credential store only ever calls `toString` on a value. -/
inductive QJsonValue where
  | undefined
  | null
  | bool (b : Bool)
  | number (n : Int)
  | string (s : QString)
  | compound
  deriving DecidableEq, Repr

/-- The Qt function `QJsonValue::toString()`: the string of a string value, the null string for
every other type. -/
def QJsonValue.toString : QJsonValue → QString
  | .string s => s
  | _ => []

/-- A `QJsonObject`: a value type holding key/value members. -/
structure QJsonObject where
  members : List (QString × QJsonValue)
  deriving DecidableEq, Repr

namespace QJsonObject

/-- The Qt function `QJsonObject::end()`: the iterator one past the last member. -/
def endIt (o : QJsonObject) : Nat := o.members.length

/-- The Qt function `QJsonObject::find(key)`: the position of the member named `key`, `end()` when
there is none. -/
def find (o : QJsonObject) (key : QString) : Nat :=
  o.members.findIdx (fun m => m.1 == key)

/-- The Qt function `iterator::value()` read through `toString()`: the member's value, `Undefined`
at `end()`. -/
def value (o : QJsonObject) (it : Nat) : QJsonValue :=
  match o.members.get? it with
  | some m => m.2
  | none => .undefined

/-- The assignment `obj[key] = v` on a `QJsonObject`: replaces the value of the member named `key`
or adds the member. -/
def assign (o : QJsonObject) (key : QString) (v : QJsonValue) : QJsonObject :=
  if o.find key < o.endIt then ⟨o.members.set (o.find key) (key, v)⟩
  else ⟨o.members ++ [(key, v)]⟩

/-- The Qt function `QJsonObject::erase(it)`: removes the member at `it`. -/
def erase (o : QJsonObject) (it : Nat) : QJsonObject :=
  ⟨o.members.eraseIdx it⟩

end QJsonObject

/-- A `QJsonDocument`: null (what `fromJson` gives for an absent or malformed file),
an array, or an object. -/
inductive QJsonDocument where
  | null
  | ofArray
  | ofObject (o : QJsonObject)
  deriving DecidableEq, Repr

/-- The Qt function `QJsonObject QJsonDocument::object() const`: a copy of the object held by the
document, the empty object when the document holds none. The result is returned by
value: changing it does not change the document, which only `setObject` does. -/
def QJsonDocument.object : QJsonDocument → QJsonObject
  | .ofObject o => o
  | _ => ⟨[]⟩

/-- What decides `useKeyring()`: `getPaths()->isPortable()`, whether `Q_OS_LINUX` is
defined, and `getSettings()->useKeyring`. -/
structure Env where
  isPortable : Bool
  isLinux : Bool
  useKeyringSetting : Bool
  deriving DecidableEq, Repr

/-- The function `useKeyring()`. -/
def useKeyring (env : Env) : Bool :=
  if env.isPortable then false
  else if env.isLinux then env.useKeyringSetting
  else true

/-- A job handed to the OS keychain; it runs outside this program. -/
inductive KeychainJob where
  | read (key : QString)
  | write (key : QString) (textData : QString)
  | delete (key : QString)
  deriving DecidableEq, Repr

/-- The state behind `Credentials`: the `static auto store` of `insecureInstance()`
(initialised from the file on first use), the `static bool isQueued` of
`queueInsecureSave()`, the single shot timers started and not yet fired, the
documents passed to `storeInsecure` (oldest first) and the keychain jobs started. -/
structure Credentials where
  store : QJsonDocument
  isQueued : Bool
  timers : Nat
  written : List QJsonDocument
  jobs : List KeychainJob
  deriving DecidableEq, Repr

/-- The store when the program starts with `doc` in `credentials.json`. -/
def Credentials.init (doc : QJsonDocument) : Credentials :=
  { store := doc, isQueued := false, timers := 0, written := [], jobs := [] }

/-- The function `storeInsecure(doc)`: one write of `doc` to the file. -/
def storeInsecure (st : Credentials) (doc : QJsonDocument) : Credentials :=
  { st with written := st.written ++ [doc] }

/-- The function `queueInsecureSave()`: starts the 200 ms single shot timer unless
one is queued. -/
def queueInsecureSave (st : Credentials) : Credentials :=
  if !st.isQueued then { st with isQueued := true, timers := st.timers + 1 }
  else st

/-- The lambda given to `QTimer::singleShot`, run when a pending timer fires:
`storeInsecure(insecureInstance()); isQueued = false;`. `none` when no timer is
pending. -/
def Credentials.timeout (st : Credentials) : Option Credentials :=
  if st.timers = 0 then none
  else
    let st1 := storeInsecure st st.store
    some { st1 with isQueued := false, timers := st1.timers - 1 }

/-- The function `Credentials::get`: the values `onLoaded` is called with before `get` returns,
and the state after. In keyring mode the read job is only started. -/
def Credentials.get (env : Env) (st : Credentials) (provider name_ : QString) :
    Option (List QString × Credentials) :=
  match FORMAT_NAME provider name_ with
  | none => none
  | some name =>
    if useKeyring env then
      some ([], { st with jobs := st.jobs ++ [.read name] })
    else
      let instance_ := st.store
      some ([(instance_.object.value (instance_.object.find name)).toString], st)

/-- The function `Credentials::set`. In local mode `instance.object()[name] = credential` assigns
into the temporary returned by `object()`; the temporary is then destroyed and
`instance` keeps its content, as `setObject` is never called. -/
def Credentials.set (env : Env) (st : Credentials) (provider name_ credential : QString) :
    Option Credentials :=
  match FORMAT_NAME provider name_ with
  | none => none
  | some name =>
    if useKeyring env then
      some { st with jobs := st.jobs ++ [.write name credential] }
    else
      let instance_ := st.store
      let _temporary := instance_.object.assign name (.string credential)
      some (queueInsecureSave { st with store := instance_ })

/-- The function `Credentials::erase`. In local mode `find`, `end` and `erase` are each called on
a fresh temporary returned by `object()`; `instance` keeps its content. -/
def Credentials.erase (env : Env) (st : Credentials) (provider name_ : QString) :
    Option Credentials :=
  match FORMAT_NAME provider name_ with
  | none => none
  | some name =>
    if useKeyring env then
      some { st with jobs := st.jobs ++ [.delete name] }
    else
      let instance_ := st.store
      let it := instance_.object.find name
      let _temporary :=
        if it ≠ instance_.object.endIt then instance_.object.erase it else instance_.object
      some (queueInsecureSave { st with store := instance_ })

/-- An environment in which `useKeyring()` is false: a portable installation. -/
def localEnv : Env := { isPortable := true, isLinux := false, useKeyringSetting := false }

/-- One step of the local-file store: a `set`, an `erase`, or a timer firing. -/
inductive Step (env : Env) : Credentials → Credentials → Prop where
  | set (st st1 : Credentials) (provider name_ credential : QString)
      (h : Credentials.set env st provider name_ credential = some st1) : Step env st st1
  | erase (st st1 : Credentials) (provider name_ : QString)
      (h : Credentials.erase env st provider name_ = some st1) : Step env st st1
  | timeout (st st1 : Credentials) (h : st.timeout = some st1) : Step env st st1

/-- The states the store reaches from its start with `doc` on file. -/
inductive Reachable (env : Env) (doc : QJsonDocument) : Credentials → Prop where
  | init : Reachable env doc (Credentials.init doc)
  | step (st st1 : Credentials) (h : Reachable env doc st) (hs : Step env st st1) :
      Reachable env doc st1

/-- A run of `set` calls, one after the other, for the given (provider, name, secret) triples. -/
def setAll (env : Env) : Credentials → List (QString × QString × QString) → Option Credentials
  | st, [] => some st
  | st, (p, n, c) :: rest =>
    match Credentials.set env st p n c with
    | none => none
    | some st1 => setAll env st1 rest

/-! Section: InputCompletionPopup.cpp -/

/-- What an `EmotePtr` points to: the emote's `name`, and `id` standing for the rest
of the emote (images, tooltip, home page). -/
structure Emote where
  name : QString
  id : Nat
  deriving DecidableEq, Repr

/-- The struct `_Emote` of the popup: one candidate. -/
structure Emote_ where
  emote : Emote
  displayName : QString
  providerName : QString
  deriving DecidableEq, Repr

/-- An `EmoteMap`, as the (lookup key, emote) pairs in the order the range-for
visits them. -/
abbrev EmoteMap := List (QString × Emote)

/-- An `EmojiData`: its short codes and its emote. -/
structure EmojiData where
  shortCodes : List QString
  emote : Emote
  deriving DecidableEq, Repr

/-- An `EmojiMap`, as its values in the order `each` visits them. -/
abbrev EmojiMap := List EmojiData

/-- The function `addEmotes`: the two output vectors after the loop over `map`. -/
def addEmotes (fold : Char → Char) (prefixMatchOut regularMatchOut : List Emote_) :
    EmoteMap → QString → QString → List Emote_ × List Emote_
  | [], _, _ => (prefixMatchOut, regularMatchOut)
  | emote :: rest, text, providerName =>
    if startsWith fold emote.1 text then
      addEmotes fold (prefixMatchOut ++ [⟨emote.2, emote.2.name, providerName⟩])
        regularMatchOut rest text providerName
    else if contains fold emote.1 text then
      addEmotes fold prefixMatchOut
        (regularMatchOut ++ [⟨emote.2, emote.2.name, providerName⟩]) rest text providerName
    else
      addEmotes fold prefixMatchOut regularMatchOut rest text providerName

/-- The inner loop of `addEmojis` over the short codes of one emoji: both branches
test `shortCode.contains(text, Qt::CaseInsensitive)`. -/
def addShortCodes (fold : Char → Char) (emote : Emote)
    (prefixMatchOut regularMatchOut : List Emote_) :
    List QString → QString → List Emote_ × List Emote_
  | [], _ => (prefixMatchOut, regularMatchOut)
  | shortCode :: rest, text =>
    if contains fold shortCode text then
      addShortCodes fold emote (prefixMatchOut ++ [⟨emote, shortCode, "Emoji".toList⟩])
        regularMatchOut rest text
    else if contains fold shortCode text then
      addShortCodes fold emote prefixMatchOut
        (regularMatchOut ++ [⟨emote, shortCode, "Emoji".toList⟩]) rest text
    else
      addShortCodes fold emote prefixMatchOut regularMatchOut rest text

/-- The function `addEmojis`: the two output vectors after `map.each`. -/
def addEmojis (fold : Char → Char) (prefixMatchOut regularMatchOut : List Emote_) :
    EmojiMap → QString → List Emote_ × List Emote_
  | [], _ => (prefixMatchOut, regularMatchOut)
  | emoji :: rest, text =>
    let out := addShortCodes fold emoji.emote prefixMatchOut regularMatchOut
      emoji.shortCodes text
    addEmojis fold out.1 out.2 rest text

/-- The result of `Channel::getType()`; this file only names `TwitchWhispers`. -/
inductive ChannelType where
  | TwitchWhispers
  | other (tag : Nat)
  deriving DecidableEq, Repr

/-- What the popup reads from a `TwitchChannel`: the six emote maps (each pointer may
be null) and the chatter names. -/
structure TwitchChannel where
  seventvEmotes : Option EmoteMap
  bttvEmotes : Option EmoteMap
  ffzEmotes : Option EmoteMap
  globalSeventv : Option EmoteMap
  globalBttv : Option EmoteMap
  globalFfz : Option EmoteMap
  chatters : List QString
  deriving DecidableEq, Repr

/-- A channel: the result of `dynamic_cast<TwitchChannel *>` and of `getType()`. -/
structure Channel where
  twitchChannel : Option TwitchChannel
  type : ChannelType
  deriving DecidableEq, Repr

/-- What the popup reads from `getApp()`: the emotes of the current user (when there
is one) and the emoji table. -/
structure App where
  currentUser : Option EmoteMap
  emojis : EmojiMap
  deriving DecidableEq, Repr

/-- An `InputCompletionItem`: its emote (null for a user name) and its text. -/
structure InputCompletionItem where
  emote : Option Emote
  text : QString
  deriving DecidableEq, Repr

/-- The popup: the items of `model_` and the current index of `ui_.listView`. -/
structure InputCompletionPopup where
  model_ : List InputCompletionItem
  currentIndex : Option Nat
  deriving DecidableEq, Repr

/-- The call of `addEmotes` for a map behind a pointer that may be null. -/
def addEmotesIf (fold : Char → Char) (out : List Emote_ × List Emote_)
    (map : Option EmoteMap) (text providerName : QString) : List Emote_ × List Emote_ :=
  match map with
  | some m => addEmotes fold out.1 out.2 m text providerName
  | none => out

/-- Lines 94 to 133 of `updateEmotes`: `prefixMatchEmotes` and `regularMatchEmotes`
after all sources have been visited. -/
def collectEmotes (fold : Char → Char) (app : App) (text : QString) (channel : Channel) :
    List Emote_ × List Emote_ :=
  let tc := channel.twitchChannel
  let wc := decide (channel.type = ChannelType.TwitchWhispers)
  if tc.isSome || wc then
    let out := addEmotesIf fold ([], []) app.currentUser text "Twitch Emote".toList
    let out :=
      match tc with
      | some tc =>
        let out := addEmotesIf fold out tc.seventvEmotes text "Channel 7TV".toList
        let out := addEmotesIf fold out tc.bttvEmotes text "Channel BetterTTV".toList
        let out := addEmotesIf fold out tc.ffzEmotes text "Channel FrankerFaceZ".toList
        let out := addEmotesIf fold out tc.globalSeventv text "Global 7TV".toList
        let out := addEmotesIf fold out tc.globalBttv text "Global BetterTTV".toList
        addEmotesIf fold out tc.globalFfz text "Global FrankerFaceZ".toList
      | none => out
    addEmojis fold out.1 out.2 app.emojis text
  else ([], [])

/-- Lines 135 to 138 of `updateEmotes`: `regularMatchEmotes` inserted at the end of
`prefixMatchEmotes`. -/
def concatenated (out : List Emote_ × List Emote_) : List Emote_ :=
  out.1 ++ out.2

/-- The test of the promotion loop: `emoteText.compare(text) == 0` or
`emoteText.compare(":" + text) == 0`, both case-insensitive. -/
def isExactMatch (fold : Char → Char) (text : QString) (e : Emote_) : Bool :=
  compare fold e.displayName text == 0 || compare fold e.displayName (':' :: text) == 0

/-- The promotion loop of `updateEmotes` from index `i` on; the first number bounds
the iterations still to run (`emotes.size()` is enough from any index). -/
def promoteLoop (fold : Char → Char) (text : QString) (emotes : List Emote_) :
    Nat → Nat → List Emote_
  | 0, _ => emotes
  | fuel + 1, i =>
    if h : i < emotes.length then
      if isExactMatch fold text emotes[i] then
        let emote := emotes[i]
        emote :: emotes.eraseIdx i
      else promoteLoop fold text emotes fuel (i + 1)
    else emotes

/-- Lines 140 to 154 of `updateEmotes`: the loop started at index 1. -/
def promote (fold : Char → Char) (text : QString) (emotes : List Emote_) : List Emote_ :=
  promoteLoop fold text emotes emotes.length 1

/-- The vector `emotes` of `updateEmotes` when the model is filled. -/
def rankEmotes (fold : Char → Char) (app : App) (text : QString) (channel : Channel) :
    List Emote_ :=
  promote fold text (concatenated (collectEmotes fold app text channel))

/-- Modelled from the spec: `GenericListModel::clear`, which is not in the source files
at hand: the model becomes the empty list, and the view, which follows its model, is
left without a current index. -/
def InputCompletionPopup.clear (_popup : InputCompletionPopup) : InputCompletionPopup :=
  { model_ := [], currentIndex := none }

/-- The two filling loops: `addItem`, then `if (count++ == maxEntryCount) break;`. -/
def addItems {α : Type} (maxEntryCount : Nat) (mk : α → InputCompletionItem) :
    List α → Nat → List InputCompletionItem → List InputCompletionItem
  | [], _, model => model
  | e :: es, count, model =>
    let model := model ++ [mk e]
    if count = maxEntryCount then model
    else addItems maxEntryCount mk es (count + 1) model

/-- The item `updateEmotes` builds for a candidate. -/
def emoteItem (emote : Emote_) : InputCompletionItem :=
  { emote := some emote.emote, text := emote.displayName ++ " - ".toList ++ emote.providerName }

/-- The item `updateUsers` builds for a chatter name. -/
def userItem (name : QString) : InputCompletionItem :=
  { emote := none, text := name }

/-- The function `InputCompletionPopup::updateEmotes`; `maxEntryCount` is the constant of the
header. -/
def InputCompletionPopup.updateEmotes (fold : Char → Char) (maxEntryCount : Nat) (app : App)
    (popup : InputCompletionPopup) (text : QString) (channel : Channel) :
    InputCompletionPopup :=
  let emotes := rankEmotes fold app text channel
  let popup := popup.clear
  let popup := { popup with model_ := addItems maxEntryCount emoteItem emotes 0 popup.model_ }
  if !emotes.isEmpty then { popup with currentIndex := some 0 }
  else popup

/-- Modelled from the spec: `ChatterSet::filterByPrefix`, which is not in the source
files at hand: the names that start with the input, case-insensitively. -/
def filterByPrefix (fold : Char → Char) (chatters : List QString) (text : QString) :
    List QString :=
  chatters.filter (fun name => startsWith fold name text)

/-- The function `InputCompletionPopup::updateUsers`. -/
def InputCompletionPopup.updateUsers (fold : Char → Char) (maxEntryCount : Nat)
    (popup : InputCompletionPopup) (text : QString) (channel : Channel) :
    InputCompletionPopup :=
  match channel.twitchChannel with
  | some twitchChannel =>
    let chatters := filterByPrefix fold twitchChannel.chatters text
    let popup := popup.clear
    let popup := { popup with model_ := addItems maxEntryCount userItem chatters 0 popup.model_ }
    if !chatters.isEmpty then { popup with currentIndex := some 0 }
    else popup
  | none => popup

/-- An emote map whose lookup keys equal the display names, in the given order. -/
def emoteMapOf (names : List String) : EmoteMap :=
  names.map (fun n => (n.toList, { name := n.toList, id := 0 }))

/-- A chat channel whose only emotes are the channel 7TV emotes `names`. -/
def channelWith (names : List String) : Channel :=
  { twitchChannel := some
      { seventvEmotes := some (emoteMapOf names), bttvEmotes := none, ffzEmotes := none,
        globalSeventv := none, globalBttv := none, globalFfz := none, chatters := [] },
    type := .other 0 }

/-- An application state without a current user and without emojis. -/
def emptyApp : App := { currentUser := none, emojis := [] }

/-! Inputs and predicates the results below are stated with. -/

/-- The flag `isQueued` is set exactly when one timer is pending, and no more than
one timer is ever pending. -/
def FlushInvariant (st : Credentials) : Prop :=
  (st.isQueued = true ∧ st.timers = 1) ∨ (st.isQueued = false ∧ st.timers = 0)

/-- The key of provider `twitch` and name `token`. -/
def tokenKey : QString := "chatterino:twitch:token".toList

/-- A document that holds the secret `old` under the key of (`twitch`, `token`). -/
def docWithToken : QJsonDocument :=
  .ofObject ⟨[(tokenKey, .string "old".toList)]⟩

/-- The candidate `addEmotes` builds from a map entry. -/
def candidate (providerName : QString) (emote : QString × Emote) : Emote_ :=
  ⟨emote.2, emote.2.name, providerName⟩

/-- Exact match in the words of the specification: the display text equals the input
text, or the input text after a colon, case-insensitively. -/
def IsExact (fold : Char → Char) (text : QString) (e : Emote_) : Prop :=
  e.displayName.map fold = text.map fold ∨ e.displayName.map fold = (':' :: text).map fold

/-- The names `a`, `aa`, `aaa`, ...: `n` different names that all start with `a`. -/
def manyNames (n : Nat) : List QString :=
  (List.range n).map (fun i => List.replicate (i + 1) 'a')

/-- A chat channel with the `n` chatters `manyNames n` and with these names as its
channel 7TV emotes. -/
def crowdedChannel (n : Nat) : Channel :=
  { twitchChannel := some
      { seventvEmotes := some ((manyNames n).map (fun s => (s, { name := s, id := 0 }))),
        bttvEmotes := none, ffzEmotes := none,
        globalSeventv := none, globalBttv := none, globalFfz := none,
        chatters := manyNames n },
    type := .other 0 }

/-- The candidates `Abar`, `Exact`, `Cbar`, in that order, from one provider. -/
def abarExactCbar : List Emote_ :=
  (emoteMapOf ["Abar", "Exact", "Cbar"]).map (candidate "Channel 7TV".toList)

/-- A channel that is neither a `TwitchChannel` nor of type `TwitchWhispers`. -/
def otherChannel : Channel := { twitchChannel := none, type := .other 0 }

/-- An application state with a current user who owns the emote `Kappa` and with the
emoji `smile`. -/
def busyApp : App :=
  { currentUser := some (emoteMapOf ["Kappa"]),
    emojis := [{ shortCodes := ["smile".toList], emote := { name := "smile".toList, id := 1 } }] }

/-- A popup that shows one item and has it selected. -/
def shownPopup : InputCompletionPopup :=
  { model_ := [userItem "someone".toList], currentIndex := some 0 }

/-! Section: results on FORMAT_NAME -/

theorem tokenize_text_append (A rest : List Char) (h : '%' ∉ A) :
    tokenize .text (A ++ rest) = A.map ArgToken.lit ++ tokenize .text rest := by
  induction A with
  | nil => rfl
  | cons c cs ih =>
    have hc : c ≠ '%' := fun e => h (by simp [e])
    have hcs : '%' ∉ cs := fun e => h (by simp [e])
    simp [tokenize, hc, ih hcs]

theorem minEscape_lit_append (A : List Char) (ts : List ArgToken) :
    minEscape (A.map ArgToken.lit ++ ts) = minEscape ts := by
  induction A with
  | nil => rfl
  | cons c cs ih => simpa [minEscape] using ih

theorem replaceArgEscapes_lit_append (m : Nat) (a : QString) (A : List Char)
    (ts : List ArgToken) :
    replaceArgEscapes m a (A.map ArgToken.lit ++ ts) = A ++ replaceArgEscapes m a ts := by
  induction A with
  | nil => rfl
  | cons c cs ih => simpa [replaceArgEscapes] using ih

/-- The first `arg` of `FORMAT_NAME` puts the provider in place of `%1`. -/
theorem arg_provider (provider : QString) :
    arg "chatterino:%1:%2".toList provider
      = "chatterino:".toList ++ provider ++ ":%2".toList := by
  simp [arg, tokenize, minEscape, replaceArgEscapes, digitValue, Char.isDigit]

/-- The second `arg` of `FORMAT_NAME` puts the name in place of `%2` when the text
before it has no `%`. -/
theorem arg_name (A name_ : QString) (h : '%' ∉ A) :
    arg (A ++ "%2".toList) name_ = A ++ name_ := by
  have ht : tokenize .text "%2".toList = [ArgToken.escape 2 "%2".toList] := by decide
  simp [arg, tokenize_text_append A _ h, minEscape_lit_append, replaceArgEscapes_lit_append,
    ht, minEscape, replaceArgEscapes]

/-- For a provider with neither `:` nor `%` the key is
`chatterino:` ++ provider ++ `:` ++ name. -/
theorem FORMAT_NAME_eq (provider name_ : QString) (h1 : ':' ∉ provider)
    (h2 : '%' ∉ provider) :
    FORMAT_NAME provider name_
      = some ("chatterino:".toList ++ provider ++ ":".toList ++ name_) := by
  have hA : '%' ∉ "chatterino:".toList ++ provider ++ ":".toList := by
    simp [h2]
  have e : "chatterino:".toList ++ provider ++ ":%2".toList
      = ("chatterino:".toList ++ provider ++ ":".toList) ++ "%2".toList := by simp
  simp only [FORMAT_NAME, if_neg h1, arg_provider, e, arg_name _ _ hA]

theorem append_colon_cancel (p1 p2 n1 n2 : QString) (h1 : ':' ∉ p1) (h2 : ':' ∉ p2)
    (h : p1 ++ ':' :: n1 = p2 ++ ':' :: n2) : p1 = p2 ∧ n1 = n2 := by
  induction p1 generalizing p2 with
  | nil =>
    cases p2 with
    | nil => simpa using h
    | cons d ds =>
      simp at h
      exact absurd h.1 (fun e => h2 (by simp [← e]))
  | cons c cs ih =>
    cases p2 with
    | nil =>
      simp at h
      exact absurd h.1 (fun e => h1 (by simp [e]))
    | cons d ds =>
      simp at h
      have hcs : ':' ∉ cs := fun e => h1 (by simp [e])
      have hds : ':' ∉ ds := fun e => h2 (by simp [e])
      obtain ⟨r1, r2⟩ := ih ds hcs hds h.2
      exact ⟨by rw [h.1, r1], r2⟩

/-- For providers with neither `:` nor `%`, equal keys come from equal providers
and equal names. -/
theorem FORMAT_NAME_injective (p1 p2 n1 n2 : QString) (h1 : ':' ∉ p1) (h2 : ':' ∉ p2)
    (g1 : '%' ∉ p1) (g2 : '%' ∉ p2) (h : FORMAT_NAME p1 n1 = FORMAT_NAME p2 n2) :
    p1 = p2 ∧ n1 = n2 := by
  rw [FORMAT_NAME_eq p1 n1 h1 g1, FORMAT_NAME_eq p2 n2 h2 g2] at h
  have h3 : p1 ++ ':' :: n1 = p2 ++ ':' :: n2 := by
    simpa [List.append_assoc] using h
  exact append_colon_cancel p1 p2 n1 n2 h1 h2 h3

/-- C5, evaluated on providers that hold a place marker: with provider `%1` and name
`a` the key is `chatterino:a:%2` and not `chatterino:%1:a`; provider `a` with name
`%2` gives the same key, although neither provider contains `:`. -/
theorem C5_key_with_place_marker_provider :
    FORMAT_NAME "%1".toList "a".toList = some "chatterino:a:%2".toList
      ∧ FORMAT_NAME "a".toList "%2".toList = some "chatterino:a:%2".toList
      ∧ ':' ∉ "%1".toList ∧ ':' ∉ "a".toList
      ∧ "%1".toList ≠ "a".toList
      ∧ FORMAT_NAME "%1".toList "a".toList
          ≠ some ("chatterino:".toList ++ "%1".toList ++ ":".toList ++ "a".toList) := by
  decide

/-! Section: results on the local-file credential store -/

theorem queueInsecureSave_invariant (st : Credentials) (h : FlushInvariant st) :
    FlushInvariant (queueInsecureSave st) := by
  rcases h with ⟨hq, ht⟩ | ⟨hq, ht⟩
  · left; simp [queueInsecureSave, hq, ht]
  · left; simp [queueInsecureSave, hq, ht]

theorem queueInsecureSave_store (st : Credentials) :
    (queueInsecureSave st).store = st.store ∧ (queueInsecureSave st).written = st.written := by
  unfold queueInsecureSave
  split <;> simp

/-- In local mode `set` answers for every provider without `:`, leaves the document
and the writes as they were, and leaves a flush queued. -/
theorem set_local (env : Env) (st : Credentials) (provider name_ credential : QString)
    (hk : useKeyring env = false) (hp : ':' ∉ provider) :
    ∃ st1, Credentials.set env st provider name_ credential = some st1
      ∧ st1.store = st.store ∧ st1.written = st.written
      ∧ st1 = queueInsecureSave st := by
  simp [Credentials.set, FORMAT_NAME, hp, hk, queueInsecureSave_store]

/-- In local mode `erase` answers for every provider without `:`, leaves the document
and the writes as they were, and leaves a flush queued. -/
theorem erase_local (env : Env) (st : Credentials) (provider name_ : QString)
    (hk : useKeyring env = false) (hp : ':' ∉ provider) :
    ∃ st1, Credentials.erase env st provider name_ = some st1
      ∧ st1.store = st.store ∧ st1.written = st.written
      ∧ st1 = queueInsecureSave st := by
  simp [Credentials.erase, FORMAT_NAME, hp, hk, queueInsecureSave_store]

/-- In local mode `get` calls `onLoaded` once, before it returns, with what the
document holds under the key. -/
theorem get_local (env : Env) (st : Credentials) (provider name_ : QString)
    (hk : useKeyring env = false) (hp : ':' ∉ provider) :
    ∃ name, FORMAT_NAME provider name_ = some name
      ∧ Credentials.get env st provider name_
          = some ([(st.store.object.value (st.store.object.find name)).toString], st) := by
  simp [Credentials.get, FORMAT_NAME, hp, hk]

/-- In local mode `get` after `set` calls `onLoaded` with what `get` gave before the
`set`, whatever the secret. -/
theorem get_after_set_local (env : Env) (st : Credentials)
    (provider name_ credential : QString)
    (hk : useKeyring env = false) (hp : ':' ∉ provider) :
    ∃ st1, Credentials.set env st provider name_ credential = some st1
      ∧ (Credentials.get env st1 provider name_).map Prod.fst
          = (Credentials.get env st provider name_).map Prod.fst := by
  obtain ⟨st1, h1, h2, _, _⟩ := set_local env st provider name_ credential hk hp
  obtain ⟨name, _, g1⟩ := get_local env st1 provider name_ hk hp
  obtain ⟨name0, _, g0⟩ := get_local env st provider name_ hk hp
  refine ⟨st1, h1, ?_⟩
  simp_all

theorem step_invariant (env : Env) (st st1 : Credentials) (hs : Step env st st1)
    (h : FlushInvariant st) : FlushInvariant st1 := by
  cases hs with
  | set provider name_ credential hset =>
    unfold Credentials.set at hset
    split at hset
    · simp at hset
    · split at hset
      · simp at hset
        subst hset
        exact h
      · simp at hset
        subst hset
        exact queueInsecureSave_invariant _ h
  | erase provider name_ herase =>
    unfold Credentials.erase at herase
    split at herase
    · simp at herase
    · split at herase
      · simp at herase
        subst herase
        exact h
      · simp at herase
        subst herase
        exact queueInsecureSave_invariant _ h
  | timeout ht =>
    unfold Credentials.timeout at ht
    split at ht
    · simp at ht
    · simp at ht
      subst ht
      rcases h with ⟨hq, hn⟩ | ⟨hq, hn⟩
      · right; simp [storeInsecure, hn]
      · right; simp [storeInsecure, hn]

/-- At every reachable state at most one flush is pending. -/
theorem reachable_invariant (env : Env) (doc : QJsonDocument) (st : Credentials)
    (h : Reachable env doc st) : FlushInvariant st ∧ st.timers ≤ 1 := by
  have hinv : FlushInvariant st := by
    induction h with
    | init => right; simp [Credentials.init]
    | step st st1 _ hs ih => exact step_invariant env st st1 hs ih
  refine ⟨hinv, ?_⟩
  rcases hinv with ⟨_, hn⟩ | ⟨_, hn⟩ <;> omega

theorem setAll_local (env : Env) (hk : useKeyring env = false)
    (sets : List (QString × QString × QString)) (st : Credentials)
    (hp : ∀ s ∈ sets, ':' ∉ s.1) (hne : sets ≠ []) (hinv : FlushInvariant st) :
    ∃ st1, setAll env st sets = some st1 ∧ st1.store = st.store
      ∧ st1.written = st.written ∧ st1.isQueued = true ∧ st1.timers = 1 := by
  induction sets generalizing st with
  | nil => exact absurd rfl hne
  | cons s rest ih =>
    obtain ⟨p, n, c⟩ := s
    obtain ⟨st1, h1, h2, h3, h4⟩ := set_local env st p n c hk (hp (p, n, c) (by simp))
    have hinv1 : FlushInvariant st1 := h4 ▸ queueInsecureSave_invariant st hinv
    have hq1 : st1.isQueued = true ∧ st1.timers = 1 := by
      rcases hinv with ⟨hq, ht⟩ | ⟨hq, ht⟩ <;> simp [h4, queueInsecureSave, hq, ht]
    by_cases hr : rest = []
    · subst hr
      exact ⟨st1, by simp [setAll, h1], h2, h3, hq1.1, hq1.2⟩
    · obtain ⟨st2, g1, g2, g3, g4, g5⟩ :=
        ih st1 (fun s hs => hp s (by simp [hs])) hr hinv1
      exact ⟨st2, by simp [setAll, h1, g1], g2.trans h2, g3.trans h3, g4, g5⟩

/-- After `N >= 1` calls of `set` in a row from a reachable state and the firing of the
pending timer, `storeInsecure` has been called exactly once more, no flush is pending,
and the document written is the one the store held before the calls. -/
theorem sets_then_timeout_local (env : Env) (hk : useKeyring env = false)
    (doc : QJsonDocument) (st : Credentials) (hr : Reachable env doc st)
    (sets : List (QString × QString × QString))
    (hp : ∀ s ∈ sets, ':' ∉ s.1) (hne : sets ≠ []) :
    ∃ st1 st2, setAll env st sets = some st1 ∧ st1.timeout = some st2
      ∧ st2.written = st.written ++ [st.store] ∧ st2.timers = 0
      ∧ st2.isQueued = false := by
  obtain ⟨st1, h1, h2, h3, h4, h5⟩ :=
    setAll_local env hk sets st hp hne (reachable_invariant env doc st hr).1
  refine ⟨st1, { storeInsecure st1 st1.store with
      isQueued := false, timers := (storeInsecure st1 st1.store).timers - 1 }, h1, ?_, ?_, ?_, ?_⟩
  · simp [Credentials.timeout, h5]
  · simp [storeInsecure, h2, h3]
  · simp [storeInsecure, h5]
  · simp

/-- C1, evaluated in local-file mode: after `set("twitch", "token", "abc")` on the
empty document, `get("twitch", "token")` calls `onLoaded` once with the empty string;
on a document that holds `old` under the key it calls `onLoaded` with `old`. -/
theorem C1_set_then_get_local_gives_previous_value :
    useKeyring localEnv = false
      ∧ ((Credentials.set localEnv (Credentials.init (.ofObject ⟨[]⟩))
            "twitch".toList "token".toList "abc".toList).bind
          (fun st => (Credentials.get localEnv st "twitch".toList "token".toList).map
            Prod.fst)) = some ["".toList]
      ∧ ((Credentials.set localEnv (Credentials.init docWithToken)
            "twitch".toList "token".toList "abc".toList).bind
          (fun st => (Credentials.get localEnv st "twitch".toList "token".toList).map
            Prod.fst)) = some ["old".toList] := by
  decide

/-- C2, evaluated in local-file mode: on a document that holds `old` under the key of
(`twitch`, `token`), `erase("twitch", "token")` followed by `get("twitch", "token")`
calls `onLoaded` with `old`, not with the empty string. -/
theorem C2_erase_then_get_local_gives_previous_value :
    useKeyring localEnv = false
      ∧ FORMAT_NAME "twitch".toList "token".toList = some tokenKey
      ∧ ((Credentials.erase localEnv (Credentials.init docWithToken)
            "twitch".toList "token".toList).bind
          (fun st => (Credentials.get localEnv st "twitch".toList "token".toList).map
            Prod.fst)) = some ["old".toList] := by
  decide

/-- C4, evaluated in local-file mode: after two calls of `set` in a row on the empty
document and the firing of the pending timer, `storeInsecure` has been called once,
and the document it wrote is the empty document: it holds neither key. -/
theorem C4_sets_then_timeout_writes_unchanged_document :
    useKeyring localEnv = false
      ∧ ((setAll localEnv (Credentials.init (.ofObject ⟨[]⟩))
            [("twitch".toList, "token".toList, "abc".toList),
             ("twitch".toList, "id".toList, "42".toList)]).bind
          Credentials.timeout).map (fun st => (st.written, st.timers))
          = some ([QJsonDocument.ofObject ⟨[]⟩], 0) := by
  decide

/-! Section: results on the completion popup -/

theorem startsWith_contains (fold : Char → Char) (s text : QString)
    (h : startsWith fold s text = true) : contains fold s text = true := by
  cases s with
  | nil => simpa [contains] using h
  | cons c cs => simp [contains, h]

theorem addEmotes_eq (fold : Char → Char) (map : EmoteMap) (text providerName : QString)
    (p r : List Emote_) :
    addEmotes fold p r map text providerName
      = (p ++ (map.filter (fun e => startsWith fold e.1 text)).map (candidate providerName),
         r ++ (map.filter (fun e => contains fold e.1 text && !startsWith fold e.1 text)).map
            (candidate providerName)) := by
  induction map generalizing p r with
  | nil => simp [addEmotes]
  | cons e rest ih =>
    by_cases hs : startsWith fold e.1 text = true
    · simp [addEmotes, hs, ih, List.filter, candidate]
    · by_cases hc : contains fold e.1 text = true
      · simp [addEmotes, hs, hc, ih, List.filter, candidate]
      · simp [addEmotes, hs, hc, ih, List.filter, candidate]

theorem addShortCodes_eq (fold : Char → Char) (emote : Emote) (codes : List QString)
    (text : QString) (p r : List Emote_) :
    addShortCodes fold emote p r codes text
      = (p ++ (codes.filter (fun c => contains fold c text)).map
            (fun c => ⟨emote, c, "Emoji".toList⟩), r) := by
  induction codes generalizing p with
  | nil => simp [addShortCodes]
  | cons c rest ih =>
    by_cases hc : contains fold c text = true
    · simp [addShortCodes, hc, ih, List.filter]
    · simp [addShortCodes, hc, ih, List.filter]

/-- The loop of `addEmojis` never adds to the second output vector. -/
theorem addEmojis_regular (fold : Char → Char) (map : EmojiMap) (text : QString)
    (p r : List Emote_) : (addEmojis fold p r map text).2 = r := by
  induction map generalizing p with
  | nil => rfl
  | cons e rest ih => simp [addEmojis, addShortCodes_eq, ih]

theorem addItems_length {α : Type} (maxEntryCount : Nat) (mk : α → InputCompletionItem)
    (l : List α) (count : Nat) (model : List InputCompletionItem)
    (h : count ≤ maxEntryCount) :
    (addItems maxEntryCount mk l count model).length
      = model.length + min l.length (maxEntryCount - count + 1) := by
  induction l generalizing count model with
  | nil => simp [addItems]
  | cons e es ih =>
    by_cases hc : count = maxEntryCount
    · simp [addItems, hc]
    · have h1 : count + 1 ≤ maxEntryCount := by omega
      simp only [addItems, if_neg hc, ih (count + 1) _ h1, List.length_append,
        List.length_cons, List.length_nil]
      omega

theorem compare_eq_zero_iff (fold : Char → Char) (a b : QString) :
    compare fold a b = 0 ↔ a.map fold = b.map fold := by
  induction a generalizing b with
  | nil => cases b <;> simp [compare]
  | cons c cs ih =>
    cases b with
    | nil => simp [compare]
    | cons d ds =>
      by_cases h : fold c = fold d
      · simp [compare, h, ih]
      · have hne : (fold c).toNat ≠ (fold d).toNat := by
          intro e
          apply h
          apply Char.ext
          apply UInt32.ext
          exact e
        simp only [compare, List.map_cons, List.cons.injEq, h, false_and, iff_false, if_false]
        omega

theorem isExactMatch_iff (fold : Char → Char) (text : QString) (e : Emote_) :
    isExactMatch fold text e = true ↔ IsExact fold text e := by
  simp [isExactMatch, IsExact, compare_eq_zero_iff]

/-- What the promotion loop does from index `i` on, given enough iterations: either
it moves the first exact candidate at or after `i` to the front, or there is none
and the vector is as before. -/
theorem promoteLoop_cases (fold : Char → Char) (text : QString) (L : List Emote_)
    (fuel i : Nat) (hfuel : L.length ≤ i + fuel) :
    (∃ k, ∃ hk : k < L.length, i ≤ k ∧ isExactMatch fold text L[k] = true
        ∧ (∀ j, ∀ hj : j < L.length, i ≤ j → j < k → isExactMatch fold text L[j] = false)
        ∧ promoteLoop fold text L fuel i = L[k] :: L.eraseIdx k)
    ∨ ((∀ j, ∀ hj : j < L.length, i ≤ j → isExactMatch fold text L[j] = false)
        ∧ promoteLoop fold text L fuel i = L) := by
  induction fuel generalizing i with
  | zero =>
    right
    exact ⟨fun j hj hij => absurd hj (by omega), rfl⟩
  | succ fuel ih =>
    by_cases h : i < L.length
    · by_cases he : isExactMatch fold text L[i] = true
      · left
        refine ⟨i, h, le_refl i, he, fun j hj h1 h2 => absurd h2 (by omega), ?_⟩
        simp [promoteLoop, h, he]
      · have he0 : isExactMatch fold text L[i] = false := by simpa using he
        have hstep : promoteLoop fold text L (fuel + 1) i
            = promoteLoop fold text L fuel (i + 1) := by
          simp [promoteLoop, h, he0]
        rcases ih (i + 1) (by omega) with ⟨k, hk, h1, h2, h3, h4⟩ | ⟨h1, h2⟩
        · left
          refine ⟨k, hk, by omega, h2, ?_, hstep.trans h4⟩
          intro j hj hij hjk
          by_cases hji : j = i
          · subst hji; exact he0
          · exact h3 j hj (by omega) hjk
        · right
          refine ⟨?_, hstep.trans h2⟩
          intro j hj hij
          by_cases hji : j = i
          · subst hji; exact he0
          · exact h1 j hj (by omega)
    · right
      refine ⟨fun j hj hij => absurd hj (by omega), ?_⟩
      simp [promoteLoop, h]

theorem cons_eraseIdx_perm (L : List Emote_) (k : Nat) (hk : k < L.length) :
    (L[k] :: L.eraseIdx k).Perm L := by
  induction L generalizing k with
  | nil => simp at hk
  | cons x xs ih =>
    cases k with
    | zero => simp
    | succ k =>
      have hk1 : k < xs.length := by simpa using hk
      have h1 : ((x :: xs)[k + 1] :: (x :: xs).eraseIdx (k + 1))
          = xs[k] :: x :: xs.eraseIdx k := by simp
      rw [h1]
      exact (List.Perm.swap x xs[k] (xs.eraseIdx k)).trans ((ih k hk1).cons x)

theorem promote_length (fold : Char → Char) (text : QString) (L : List Emote_) :
    (promote fold text L).length = L.length := by
  rcases promoteLoop_cases fold text L L.length 1 (by omega) with
    ⟨k, hk, _, _, _, h4⟩ | ⟨_, h2⟩
  · unfold promote
    rw [h4]
    exact (cons_eraseIdx_perm L k hk).length_eq
  · unfold promote
    rw [h2]

/-- The number of items `updateEmotes` leaves in the model. -/
theorem updateEmotes_length (fold : Char → Char) (maxEntryCount : Nat) (app : App)
    (popup : InputCompletionPopup) (text : QString) (channel : Channel) :
    (popup.updateEmotes fold maxEntryCount app text channel).model_.length
      = min (rankEmotes fold app text channel).length (maxEntryCount + 1) := by
  unfold InputCompletionPopup.updateEmotes
  simp only []
  split <;> simp [InputCompletionPopup.clear, addItems_length]

/-- The number of items `updateUsers` leaves in the model for a chat channel. -/
theorem updateUsers_length (fold : Char → Char) (maxEntryCount : Nat)
    (popup : InputCompletionPopup) (text : QString) (channel : Channel)
    (tc : TwitchChannel) (h : channel.twitchChannel = some tc) :
    (popup.updateUsers fold maxEntryCount text channel).model_.length
      = min (filterByPrefix fold tc.chatters text).length (maxEntryCount + 1) := by
  unfold InputCompletionPopup.updateUsers
  simp only [h]
  split <;> simp [InputCompletionPopup.clear, addItems_length]

theorem startsWith_manyNames (fold : Char → Char) (n : Nat) :
    ∀ s ∈ manyNames n, startsWith fold s ['a'] = true := by
  intro s hs
  simp only [manyNames, List.mem_map, List.mem_range] at hs
  obtain ⟨i, _, rfl⟩ := hs
  simp [List.replicate, startsWith]

theorem manyNames_length (n : Nat) : (manyNames n).length = n := by
  simp [manyNames]

/-- C3, evaluated with one candidate more than `maxEntryCount`: for every value of
`maxEntryCount` and every folding table, on a chat channel with `maxEntryCount + 1`
chatters and emotes that all start with the input `a`, `updateUsers` and
`updateEmotes` each leave `maxEntryCount + 1` items in the model. -/
theorem C3_one_item_more_than_maxEntryCount (fold : Char → Char) (maxEntryCount : Nat)
    (popup : InputCompletionPopup) :
    (popup.updateUsers fold maxEntryCount ['a'] (crowdedChannel (maxEntryCount + 1))).model_.length
        = maxEntryCount + 1
      ∧ (popup.updateEmotes fold maxEntryCount emptyApp ['a']
          (crowdedChannel (maxEntryCount + 1))).model_.length = maxEntryCount + 1 := by
  have hall := startsWith_manyNames fold (maxEntryCount + 1)
  constructor
  · rw [updateUsers_length fold maxEntryCount popup ['a'] _ _ rfl]
    have hf : filterByPrefix fold (manyNames (maxEntryCount + 1)) ['a']
        = manyNames (maxEntryCount + 1) := by
      unfold filterByPrefix
      exact List.filter_eq_self.mpr hall
    simp [hf, manyNames_length]
  · rw [updateEmotes_length]
    have hr : (rankEmotes fold emptyApp ['a'] (crowdedChannel (maxEntryCount + 1))).length
        = maxEntryCount + 1 := by
      unfold rankEmotes
      rw [promote_length]
      have h1 : List.filter (fun e : QString × Emote => startsWith fold e.1 ['a'])
          ((manyNames (maxEntryCount + 1)).map (fun s => (s, ({ name := s, id := 0 } : Emote))))
          = (manyNames (maxEntryCount + 1)).map (fun s => (s, { name := s, id := 0 })) := by
        apply List.filter_eq_self.mpr
        intro e he
        simp only [List.mem_map] at he
        obtain ⟨s, hs, rfl⟩ := he
        exact hall s hs
      have h2 : List.filter
          (fun e : QString × Emote => contains fold e.1 ['a'] && !startsWith fold e.1 ['a'])
          ((manyNames (maxEntryCount + 1)).map (fun s => (s, ({ name := s, id := 0 } : Emote))))
          = [] := by
        apply List.filter_eq_nil_iff.mpr
        intro e he
        simp only [List.mem_map] at he
        obtain ⟨s, hs, rfl⟩ := he
        simp [hall s hs]
      simp [collectEmotes, crowdedChannel, emptyApp, addEmotesIf, addEmotes_eq, addEmojis,
        concatenated, h1, h2, manyNames_length]
    rw [hr]
    simp

/-- C6: `addEmotes` appends to the first vector the entries whose key starts with the
text and to the second those whose key contains it without starting with it, both in
map order; an entry whose key does not contain the text goes to neither, no entry goes
to both, and the vector ranked by `updateEmotes` is the first vector followed by the
second. The candidates `Foo`, `Foobar`, `bar`, `xFooy` with input `Foo` give the
buckets `Foo`, `Foobar` and `xFooy` and the final order `Foo`, `Foobar`, `xFooy`. -/
theorem C6_addEmotes_buckets_and_concatenation (fold : Char → Char)
    (prefixMatchOut regularMatchOut : List Emote_) (map : EmoteMap)
    (text providerName : QString) (app : App) (channel : Channel) :
    addEmotes fold prefixMatchOut regularMatchOut map text providerName
        = (prefixMatchOut
            ++ (map.filter (fun e => startsWith fold e.1 text)).map (candidate providerName),
           regularMatchOut
            ++ (map.filter (fun e => contains fold e.1 text && !startsWith fold e.1 text)).map
                (candidate providerName))
      ∧ (∀ e ∈ map, contains fold e.1 text = false →
          startsWith fold e.1 text = false
            ∧ (contains fold e.1 text && !startsWith fold e.1 text) = false)
      ∧ (∀ e ∈ map, ¬ (startsWith fold e.1 text = true
            ∧ (contains fold e.1 text && !startsWith fold e.1 text) = true))
      ∧ rankEmotes fold app text channel
          = promote fold text
              ((collectEmotes fold app text channel).1 ++ (collectEmotes fold app text channel).2)
      ∧ (addEmotes asciiFold [] [] (emoteMapOf ["Foo", "Foobar", "bar", "xFooy"])
            "Foo".toList "Channel 7TV".toList).1.map Emote_.displayName
          = ["Foo".toList, "Foobar".toList]
      ∧ (addEmotes asciiFold [] [] (emoteMapOf ["Foo", "Foobar", "bar", "xFooy"])
            "Foo".toList "Channel 7TV".toList).2.map Emote_.displayName
          = ["xFooy".toList]
      ∧ (rankEmotes asciiFold emptyApp "Foo".toList
            (channelWith ["Foo", "Foobar", "bar", "xFooy"])).map Emote_.displayName
          = ["Foo".toList, "Foobar".toList, "xFooy".toList] := by
  refine ⟨addEmotes_eq fold map text providerName _ _, ?_, ?_, rfl, by decide, by decide,
    by decide⟩
  · intro e _ hc
    refine ⟨?_, by simp [hc]⟩
    cases hs : startsWith fold e.1 text
    · rfl
    · rw [startsWith_contains fold e.1 text hs] at hc
      exact absurd hc (by simp)
  · intro e _ h
    obtain ⟨h1, h2⟩ := h
    simp [h1] at h2

/-- C7 as stated fails: with the candidates `Abar`, `Exact`, `Cbar` and the input
`Exact`, the substring bucket is not these three candidates and the final order is not
`Exact`, `Abar`, `Cbar`. -/
theorem C7_example_as_stated_fails :
    ¬ ((collectEmotes asciiFold emptyApp "Exact".toList
          (channelWith ["Abar", "Exact", "Cbar"])).2.map Emote_.displayName
        = ["Abar".toList, "Exact".toList, "Cbar".toList])
      ∧ ¬ ((rankEmotes asciiFold emptyApp "Exact".toList
          (channelWith ["Abar", "Exact", "Cbar"])).map Emote_.displayName
        = ["Exact".toList, "Abar".toList, "Cbar".toList]) := by
  decide

/-- C7 amended: with the candidates `Abar`, `Exact`, `Cbar` (lookup key equal to
display text) and the input `Exact`, only `Exact` is classified, as a prefix match,
the substring bucket is empty and the final order is `Exact` alone; and the promotion
loop run on the vector `Abar`, `Exact`, `Cbar` gives `Exact`, `Abar`, `Cbar`. -/
theorem C7_example_amended :
    (collectEmotes asciiFold emptyApp "Exact".toList
        (channelWith ["Abar", "Exact", "Cbar"])).1.map Emote_.displayName = ["Exact".toList]
      ∧ (collectEmotes asciiFold emptyApp "Exact".toList
        (channelWith ["Abar", "Exact", "Cbar"])).2 = []
      ∧ (rankEmotes asciiFold emptyApp "Exact".toList
          (channelWith ["Abar", "Exact", "Cbar"])).map Emote_.displayName = ["Exact".toList]
      ∧ abarExactCbar.map Emote_.displayName
          = ["Abar".toList, "Exact".toList, "Cbar".toList]
      ∧ (promote asciiFold "Exact".toList abarExactCbar).map Emote_.displayName
          = ["Exact".toList, "Abar".toList, "Cbar".toList] := by
  decide

/-- C8: when the channel is neither a `TwitchChannel` nor of type `TwitchWhispers`,
`updateEmotes` leaves the model without items and the list view without a current
index, whatever the input text, the model before and the source collections: all it
does is `model_.clear()`, and `setCurrentIndex` is not called. -/
theorem C8_ineligible_channel_yields_nothing (fold : Char → Char) (maxEntryCount : Nat)
    (app : App) (popup : InputCompletionPopup) (text : QString) (channel : Channel)
    (htc : channel.twitchChannel = none) (hwc : channel.type ≠ ChannelType.TwitchWhispers) :
    (popup.updateEmotes fold maxEntryCount app text channel).model_ = []
      ∧ (popup.updateEmotes fold maxEntryCount app text channel).currentIndex = none
      ∧ popup.updateEmotes fold maxEntryCount app text channel = popup.clear := by
  have hr : rankEmotes fold app text channel = [] := by
    simp [rankEmotes, collectEmotes, htc, hwc, concatenated, promote, promoteLoop]
  simp [InputCompletionPopup.updateEmotes, hr, InputCompletionPopup.clear, addItems]

/-- C8 at a concrete input: a popup that shows an item, an application with emotes and
emojis that match the input `a`, and a channel that is not eligible. -/
theorem C8_ineligible_channel_witness :
    otherChannel.twitchChannel = none ∧ otherChannel.type ≠ ChannelType.TwitchWhispers
      ∧ (shownPopup.updateEmotes asciiFold 200 busyApp "a".toList otherChannel).model_ = []
      ∧ (shownPopup.updateEmotes asciiFold 200 busyApp "a".toList otherChannel).currentIndex
          = none
      ∧ shownPopup.updateEmotes asciiFold 200 busyApp "a".toList otherChannel
          = shownPopup.clear :=
  ⟨rfl, by decide,
    C8_ineligible_channel_yields_nothing asciiFold 200 busyApp shownPopup "a".toList
      otherChannel rfl (by decide)⟩

/-- C9, evaluated on the short code `smile` with the input `mil`: `addEmojis` puts the
short code into the prefix-match vector although the input is not a prefix of it, and
leaves the substring-match vector empty. -/
theorem C9_addEmojis_puts_substring_match_into_first_bucket :
    startsWith asciiFold "smile".toList "mil".toList = false
      ∧ contains asciiFold "smile".toList "mil".toList = true
      ∧ addEmojis asciiFold [] [] busyApp.emojis "mil".toList
          = ([⟨{ name := "smile".toList, id := 1 }, "smile".toList, "Emoji".toList⟩], []) := by
  decide

/-- C10: with a candidate called exact when its display text equals the input text or
the input text after a colon, case-insensitively: if `i` is the smallest index from 1
on that holds an exact candidate, the promotion loop gives `L[i]` followed by `L`
without its element at `i`; if no index from 1 on holds one it gives `L`; the result is
always a permutation of `L`; and when some candidate of `L` is exact, the first entry
of the result is exact. -/
theorem C10_promotion_equals_reference (fold : Char → Char) (text : QString)
    (L : List Emote_) :
    (∀ i, ∀ hi : i < L.length, 1 ≤ i → IsExact fold text L[i] →
        (∀ j, ∀ hj : j < L.length, 1 ≤ j → j < i → ¬ IsExact fold text L[j]) →
        promote fold text L = L[i] :: L.eraseIdx i)
      ∧ ((∀ j, ∀ hj : j < L.length, 1 ≤ j → ¬ IsExact fold text L[j]) →
          promote fold text L = L)
      ∧ (promote fold text L).Perm L
      ∧ ((∃ e ∈ L, IsExact fold text e) →
          ∃ e rest, promote fold text L = e :: rest ∧ IsExact fold text e) := by
  have hcases := promoteLoop_cases fold text L L.length 1 (by omega)
  refine ⟨?_, ?_, ?_, ?_⟩
  · intro i hi h1 hex hmin
    rcases hcases with ⟨k, hk, g1, g2, g3, g4⟩ | ⟨g1, _⟩
    · have hki : k = i := by
        rcases Nat.lt_trichotomy k i with hlt | heq | hgt
        · exact absurd ((isExactMatch_iff fold text L[k]).mp g2) (hmin k hk g1 hlt)
        · exact heq
        · have := g3 i hi h1 hgt
          rw [(isExactMatch_iff fold text L[i]).mpr hex] at this
          exact absurd this (by simp)
      subst hki
      exact g4
    · have := g1 i hi h1
      rw [(isExactMatch_iff fold text L[i]).mpr hex] at this
      exact absurd this (by simp)
  · intro hnone
    rcases hcases with ⟨k, hk, g1, g2, _, _⟩ | ⟨_, g2⟩
    · exact absurd ((isExactMatch_iff fold text L[k]).mp g2) (hnone k hk g1)
    · exact g2
  · rcases hcases with ⟨k, hk, _, _, _, g4⟩ | ⟨_, g2⟩
    · unfold promote
      rw [g4]
      exact cons_eraseIdx_perm L k hk
    · unfold promote
      rw [g2]
  · rintro ⟨e, he, hex⟩
    rcases hcases with ⟨k, hk, _, g2, _, g4⟩ | ⟨g1, g2⟩
    · exact ⟨L[k], L.eraseIdx k, g4, (isExactMatch_iff fold text L[k]).mp g2⟩
    · obtain ⟨n, hn, rfl⟩ := List.getElem_of_mem he
      cases L with
      | nil => simp at hn
      | cons x xs =>
        refine ⟨x, xs, g2, ?_⟩
        cases n with
        | zero => simpa using hex
        | succ n =>
          have := g1 (n + 1) hn (by omega)
          rw [(isExactMatch_iff fold text _).mpr hex] at this
          exact absurd this (by simp)

/-- C10 at a concrete input: on `Abar`, `Exact`, `Cbar` with the input `Exact`, index 1
is the smallest index from 1 on with an exact candidate, and the loop gives the
candidate at index 1 followed by the two others. -/
theorem C10_promotion_witness :
    promote asciiFold "Exact".toList abarExactCbar
      = abarExactCbar[1] :: abarExactCbar.eraseIdx 1 :=
  (C10_promotion_equals_reference asciiFold "Exact".toList abarExactCbar).1 1 (by decide)
    (le_refl 1) (Or.inl (by decide)) (fun j _ h1 h2 => absurd h2 (by omega))

end chatterino
